import Mathlib

/-!
Shallow embedding of the Trace virtual CPU core (src/src/cpu.cpp,
src/include/cpu.hpp, src/include/trace.hpp).

Machine integers are modelled as `Nat` with explicit reductions at the
points where the C++ performs an integral conversion:
* `uint8_t` stores and casts become `% 256`,
* `uint16_t` stores and casts become `% 65536`,
* plain `int` arithmetic (after C++ integral promotion) is ordinary `Nat`
  arithmetic with no reduction, which is why `write16` and `load_program`
  can compute indices ≥ 65536 exactly as the C++ does.
-/

/-- `enum class MicroState` from include/trace.hpp. -/
inductive MicroState where
  | FetchOp
  | FetchOpLo
  | FetchOpHi
  | Decode
  | MemRead
  | MemWrite
  | Execute
  | WriteBack
  | Halted
deriving DecidableEq

/-- `enum class BusDir` from include/trace.hpp. -/
inductive BusDir where
  | Read
  | Write
  | NoneDir
deriving DecidableEq

/-- `struct BusEvent` from include/trace.hpp. -/
structure BusEvent where
  cycle : Nat
  state : MicroState
  dir : BusDir
  address : Nat
  data : Nat
  note : String
deriving DecidableEq

/-- `struct TraceFrame` from include/trace.hpp (snapshot after each micro-step). -/
structure TraceFrame where
  cycle : Nat
  pc : Nat
  a : Nat
  b : Nat
  x : Nat
  sp : Nat
  flags : Nat
  opcode : Nat
  state : MicroState
  events : List BusEvent
deriving DecidableEq

/-- `struct CPU` from include/cpu.hpp.  The 64 KiB `std::array` is modelled as
a total function `Nat → Nat`; the engine only ever reads it at `uint16_t`
addresses, while `write16` / `load_program` may compute indices ≥ 65536 exactly
as the C++ source does. -/
structure CPU where
  A : Nat
  B : Nat
  X : Nat
  PC : Nat
  SP : Nat
  FLAGS : Nat
  mem : Nat → Nat
  halted : Bool
  cycles : Nat
  ustate : MicroState
  opcode : Nat
  opaddr : Nat
  timeline : List TraceFrame

/-- Flag bit `F_C` (carry), cpu.cpp line 4. -/
def F_C : Nat := 1

/-- Flag bit `F_Z` (zero), cpu.cpp line 5. -/
def F_Z : Nat := 2

/-- Flag bit `F_N` (negative), cpu.cpp line 6. -/
def F_N : Nat := 4

/-- Flag bit `F_V` (overflow), cpu.cpp line 7. -/
def F_V : Nat := 8

/-- `CPU::setZN` (cpu.cpp): returns the new FLAGS value.
`FLAGS &= ~F_Z` on a `uint8_t` is `&&& 0xFD`, `FLAGS &= ~F_N` is `&&& 0xFB`. -/
def setZN (flags v : Nat) : Nat :=
  let f1 := if v = 0 then flags ||| F_Z else flags &&& 0xFD
  if v &&& 0x80 ≠ 0 then f1 ||| F_N else f1 &&& 0xFB

/-- `CPU::setAddFlags` (cpu.cpp): C from bit 8 of the 16-bit result, Z/N from
the low byte, V from the standard signed-overflow rule. Returns new FLAGS. -/
def setAddFlags (flags res a b : Nat) : Nat :=
  let f1 := if res &&& 0x100 ≠ 0 then flags ||| F_C else flags &&& 0xFE
  let r := res % 256
  let f2 := setZN f1 r
  if ((a ^^^ b) &&& 0x80) = 0 ∧ ((a ^^^ r) &&& 0x80) ≠ 0 then f2 ||| F_V
  else f2 &&& 0xF7

/-- `CPU::push_event` (cpu.cpp): append one BusEvent built from the CPU's
current `cycles` and `ustate`. -/
def push_event (c : CPU) (ev : List BusEvent) (dir : BusDir) (addr data : Nat)
    (note : String) : List BusEvent :=
  ev ++ [{ cycle := c.cycles, state := c.ustate, dir := dir, address := addr,
           data := data, note := note }]

/-- `CPU::read` (cpu.cpp): read a byte and emit a Read bus event. -/
def busRead (c : CPU) (ev : List BusEvent) (addr : Nat) (note : String) :
    Nat × List BusEvent :=
  (c.mem addr, push_event c ev BusDir.Read addr (c.mem addr) note)

/-- `CPU::write` (cpu.cpp): store a byte (a `uint8_t` cell, hence `% 256`)
and emit a Write bus event. -/
def busWrite (c : CPU) (ev : List BusEvent) (addr data : Nat) (note : String) :
    CPU × List BusEvent :=
  ({ c with mem := fun i => if i = addr then data % 256 else c.mem i },
   push_event c ev BusDir.Write addr (data % 256) note)

/-- The `FetchOp` arm of `CPU::step_cycle`: `opcode = read(PC++); ustate = Decode`. -/
def fetchStep (c : CPU) : CPU × List BusEvent :=
  let r := busRead c [] c.PC "opcode fetch"
  ({ c with opcode := r.1, PC := (c.PC + 1) % 65536, ustate := MicroState.Decode }, r.2)

/-- The `Decode` arm's next-state choice (the inner `switch(opcode)` of the
Decode case in `CPU::step_cycle`). -/
def decodeNext (op : Nat) : MicroState :=
  if op = 0x00 then MicroState.Execute
  else if op = 0xFF then MicroState.Execute
  else if op = 0x10 ∨ op = 0x11 ∨ op = 0x33 then MicroState.FetchOpLo
  else if op = 0x12 ∨ op = 0x13 ∨ op = 0x30 ∨ op = 0x31 ∨ op = 0x32 ∨
          op = 0x34 ∨ op = 0x35 then MicroState.FetchOpLo
  else MicroState.Execute

/-- The `FetchOpLo` arm of `CPU::step_cycle`: read the low operand byte into
`opaddr` and pick Execute (immediate) or FetchOpHi. -/
def fetchLoStep (c : CPU) : CPU × List BusEvent :=
  let r := busRead c [] c.PC "operand lo"
  let ns := if c.opcode = 0x10 ∨ c.opcode = 0x11 ∨ c.opcode = 0x33 then
              MicroState.Execute
            else MicroState.FetchOpHi
  ({ c with PC := (c.PC + 1) % 65536, opaddr := r.1, ustate := ns }, r.2)

/-- The `FetchOpHi` arm of `CPU::step_cycle`: `opaddr |= hi << 8` as a
`uint16_t` store. -/
def fetchHiStep (c : CPU) : CPU × List BusEvent :=
  let r := busRead c [] c.PC "operand hi"
  ({ c with PC := (c.PC + 1) % 65536,
            opaddr := (c.opaddr ||| (r.1 <<< 8)) % 65536,
            ustate := MicroState.Execute }, r.2)

/-- The `Execute` arm of `CPU::step_cycle`: the big `switch(opcode)`.
For SUB (0x21) the C++ computes `uint16(A) + uint16(~B) + 1` where `~B` is
complemented at `int` width and truncated to 16 bits, i.e. `65535 - B` for a
byte `B`; the whole sum is then stored in a `uint16_t`, hence `% 65536`. -/
def execStep (c : CPU) : CPU × List BusEvent :=
  let r :=
    if c.opcode = 0x00 then (c, ([] : List BusEvent))
    else if c.opcode = 0xFF then
      ({ c with halted := true, ustate := MicroState.Halted }, [])
    else if c.opcode = 0x10 then
      ({ c with A := c.opaddr &&& 0xFF, FLAGS := setZN c.FLAGS (c.opaddr &&& 0xFF) }, [])
    else if c.opcode = 0x11 then
      ({ c with B := c.opaddr &&& 0xFF, FLAGS := setZN c.FLAGS (c.opaddr &&& 0xFF) }, [])
    else if c.opcode = 0x33 then
      ({ c with X := c.opaddr &&& 0xFF, FLAGS := setZN c.FLAGS (c.opaddr &&& 0xFF) }, [])
    else if c.opcode = 0x12 then
      let rd := busRead c [] c.opaddr "LDA mem"
      ({ c with A := rd.1, FLAGS := setZN c.FLAGS rd.1 }, rd.2)
    else if c.opcode = 0x13 then
      busWrite c [] c.opaddr c.A "STA mem"
    else if c.opcode = 0x20 then
      let r2 := c.A + c.B
      ({ c with FLAGS := setAddFlags c.FLAGS r2 c.A c.B, A := r2 % 256 }, [])
    else if c.opcode = 0x21 then
      let r2 := (c.A + (65535 - c.B) + 1) % 65536
      let rr := r2 % 256
      let f1 := if r2 &&& 0x100 ≠ 0 then c.FLAGS ||| F_C else c.FLAGS &&& 0xFE
      let f2 := setZN f1 rr
      let f3 := if ((c.A ^^^ c.B) &&& 0x80) ≠ 0 ∧ ((c.A ^^^ rr) &&& 0x80) ≠ 0 then
                  f2 ||| F_V
                else f2 &&& 0xF7
      ({ c with FLAGS := f3, A := rr }, [])
    else if c.opcode = 0x22 then
      ({ c with A := c.A &&& c.B, FLAGS := setZN c.FLAGS (c.A &&& c.B) }, [])
    else if c.opcode = 0x23 then
      ({ c with A := c.A ||| c.B, FLAGS := setZN c.FLAGS (c.A ||| c.B) }, [])
    else if c.opcode = 0x24 then
      ({ c with A := c.A ^^^ c.B, FLAGS := setZN c.FLAGS (c.A ^^^ c.B) }, [])
    else if c.opcode = 0x25 then
      ({ c with A := (c.A + 1) % 256, FLAGS := setZN c.FLAGS ((c.A + 1) % 256) }, [])
    else if c.opcode = 0x26 then
      ({ c with A := (c.A + 255) % 256, FLAGS := setZN c.FLAGS ((c.A + 255) % 256) }, [])
    else if c.opcode = 0x30 then
      ({ c with PC := c.opaddr }, [])
    else if c.opcode = 0x31 then
      ((if c.FLAGS &&& F_Z ≠ 0 then { c with PC := c.opaddr } else c), [])
    else if c.opcode = 0x32 then
      ((if c.FLAGS &&& F_Z = 0 then { c with PC := c.opaddr } else c), [])
    else if c.opcode = 0x34 then
      let rd := busRead c [] ((c.opaddr + c.X) % 65536) "LDA [abs+X]"
      ({ c with A := rd.1, FLAGS := setZN c.FLAGS rd.1 }, rd.2)
    else if c.opcode = 0x35 then
      busWrite c [] ((c.opaddr + c.X) % 65536) c.A "STA [abs+X]"
    else
      ({ c with halted := true, ustate := MicroState.Halted }, [])
  (if r.1.halted then r.1 else { r.1 with ustate := MicroState.WriteBack }, r.2)

/-- The trailing snapshot of `CPU::step_cycle`: append one TraceFrame built
from the post-transition state (SP truncated to its low byte) and then
increment `cycles`. -/
def snapshot (c : CPU) (ev : List BusEvent) : CPU :=
  { c with
    timeline := c.timeline ++
      [{ cycle := c.cycles, pc := c.PC, a := c.A, b := c.B, x := c.X,
         sp := c.SP % 256, flags := c.FLAGS, opcode := c.opcode,
         state := c.ustate, events := ev }],
    cycles := c.cycles + 1 }

/-- The `switch(ustate)` of `CPU::step_cycle`: one state transition plus the
bus events it emitted.  `MemRead`, `MemWrite` and `Halted` fall through with
no effect, exactly as in the source. -/
def stepArm (c : CPU) : CPU × List BusEvent :=
  match c.ustate with
  | MicroState.FetchOp => fetchStep c
  | MicroState.Decode => ({ c with ustate := decodeNext c.opcode }, [])
  | MicroState.FetchOpLo => fetchLoStep c
  | MicroState.FetchOpHi => fetchHiStep c
  | MicroState.Execute => execStep c
  | MicroState.WriteBack => ({ c with ustate := MicroState.FetchOp }, [])
  | _ => (c, [])

/-- `CPU::step_cycle` (cpu.cpp): guard on `halted`, one switch arm, snapshot. -/
def step_cycle (c : CPU) : CPU :=
  if c.halted then c
  else snapshot (stepArm c).1 (stepArm c).2

/-- One do-while loop of `CPU::step_instr`, with explicit fuel:
`do { step_cycle(); } while (ustate != FetchOp && !halted)`. -/
def runToBoundary : Nat → CPU → CPU
  | 0, c => c
  | Nat.succ n, c =>
    let c2 := step_cycle c
    if c2.ustate = MicroState.FetchOp ∨ c2.halted then c2 else runToBoundary n c2

/-- `CPU::step_instr` (cpu.cpp): finish any in-flight instruction, then run one
more full instruction.  Fuel 8 strictly exceeds the longest possible
instruction path (6 micro-steps); `runToBoundary_fuel_ge` below shows the
result is fuel-independent from every reachable state, which is exactly the
termination of the C++ do-while loops. -/
def step_instr (c : CPU) : CPU :=
  if c.halted then c
  else
    let c1 := if c.ustate = MicroState.FetchOp then c else runToBoundary 8 c
    runToBoundary 8 c1

/-- `CPU::reset` (cpu.cpp).  `pc_init` is a `uint16_t` parameter, hence the
`% 65536` at the call boundary. -/
def reset (c : CPU) (pc_init : Nat) : CPU :=
  { c with A := 0, B := 0, X := 0, FLAGS := 0, SP := 0x01FF,
           PC := pc_init % 65536, halted := false, cycles := 0,
           ustate := MicroState.FetchOp, timeline := [] }

/-- The sequence of `(index, byte)` array stores performed by `CPU::write16`.
`addr` and `value` are `uint16_t` parameters (`% 65536` at entry); the C++
indexes `mem[addr]` and `mem[addr + 1]` where `addr + 1` is computed at `int`
width, so for `addr = 0xFFFF` the second index is 65536 — past the end of the
array, not wrapped. -/
def write16_stores (addr value : Nat) : List (Nat × Nat) :=
  let a := addr % 65536
  let v := value % 65536
  [(a, v % 256), (a + 1, v / 256)]

/-- The loop body of `CPU::load_program`: byte `i` of the list is stored at
index `origin + i` (a `size_t` index: no wrap, no truncation). -/
def load_stores_from (origin : Nat) : List Nat → List (Nat × Nat)
  | [] => []
  | b :: rest => (origin, b) :: load_stores_from (origin + 1) rest

/-- The sequence of `(index, byte)` array stores performed by
`CPU::load_program`.  `origin` is a `uint16_t` parameter (`% 65536` at entry);
the indices `origin + i` themselves are `size_t`, so they run past the end of
the 65536-byte array when `origin + bytes.length > 65536`. -/
def load_program_stores (bytes : List Nat) (origin : Nat) : List (Nat × Nat) :=
  load_stores_from (origin % 65536) bytes

/-- Apply a list of `(index, byte)` stores to a memory function
(each cell is a `uint8_t`, hence `% 256`). -/
def applyStores (m : Nat → Nat) (stores : List (Nat × Nat)) : Nat → Nat :=
  stores.foldl (fun acc p => fun i => if i = p.1 then p.2 % 256 else acc i) m

/-- `CPU::load_program` as a state transformer. -/
def load_program (c : CPU) (bytes : List Nat) (origin : Nat) : CPU :=
  { c with mem := applyStores c.mem (load_program_stores bytes origin) }

/-- `CPU::write16` as a state transformer. -/
def write16 (c : CPU) (addr value : Nat) : CPU :=
  { c with mem := applyStores c.mem (write16_stores addr value) }

/-- The zero-initialized `CPU` value produced by the member initializers in
include/cpu.hpp (note `SP{0xFF}` there; `reset` later sets 0x01FF). -/
def initCPU : CPU :=
  { A := 0, B := 0, X := 0, PC := 0, SP := 0xFF, FLAGS := 0,
    mem := fun _ => 0, halted := false, cycles := 0,
    ustate := MicroState.FetchOp, opcode := 0, opaddr := 0, timeline := [] }

/-- States reachable through the public API: default construction, then any
interleaving of `reset`, `load_program`, `write16`, `step_cycle`,
`step_instr`. -/
inductive Reachable : CPU → Prop where
  | init : Reachable initCPU
  | rst : ∀ {c} (p : Nat), Reachable c → Reachable (reset c p)
  | loadp : ∀ {c} (bytes : List Nat) (origin : Nat), Reachable c →
      Reachable (load_program c bytes origin)
  | wr16 : ∀ {c} (addr value : Nat), Reachable c → Reachable (write16 c addr value)
  | cyc : ∀ {c}, Reachable c → Reachable (step_cycle c)
  | instr : ∀ {c}, Reachable c → Reachable (step_instr c)

/-- Which opcodes make the Execute arm halt the machine: 0xFF (HLT) and every
opcode outside the `switch(opcode)` case list of `CPU::step_cycle`'s Execute
arm (the `default:` branch treats unknown opcodes as HLT). -/
def execHalts (op : Nat) : Bool :=
  !(op == 0x00 || op == 0x10 || op == 0x11 || op == 0x33 || op == 0x12 || op == 0x13 ||
    op == 0x20 || op == 0x21 || op == 0x22 || op == 0x23 || op == 0x24 || op == 0x25 ||
    op == 0x26 || op == 0x30 || op == 0x31 || op == 0x32 || op == 0x34 || op == 0x35)

/-- Modelled from the spec, §4.E: the expected sequence of micro-states of one
instruction, starting after the FetchOp step, per the spec's opcode
classification — immediate opcodes fetch one operand byte, absolute opcodes
two, implied opcodes none, and HLT/unknown opcodes halt out of Execute.
Written from the spec's words to be compared against the engine's behavior. -/
def specPath (op : Nat) : List MicroState :=
  if op = 0x10 ∨ op = 0x11 ∨ op = 0x33 then
    [MicroState.Decode, MicroState.FetchOpLo, MicroState.Execute,
     MicroState.WriteBack, MicroState.FetchOp]
  else if op = 0x12 ∨ op = 0x13 ∨ op = 0x30 ∨ op = 0x31 ∨ op = 0x32 ∨
          op = 0x34 ∨ op = 0x35 then
    [MicroState.Decode, MicroState.FetchOpLo, MicroState.FetchOpHi,
     MicroState.Execute, MicroState.WriteBack, MicroState.FetchOp]
  else if op = 0x00 ∨ op = 0x20 ∨ op = 0x21 ∨ op = 0x22 ∨ op = 0x23 ∨
          op = 0x24 ∨ op = 0x25 ∨ op = 0x26 then
    [MicroState.Decode, MicroState.Execute, MicroState.WriteBack, MicroState.FetchOp]
  else
    [MicroState.Decode, MicroState.Execute, MicroState.Halted]

/-- The micro-states observed after each of the next `n` `step_cycle` calls. -/
def ustatesAfter (c : CPU) : Nat → List MicroState
  | 0 => []
  | n + 1 => (step_cycle c).ustate :: ustatesAfter (step_cycle c) n

/-- A state is good when `halted` agrees with the `Halted` micro-state and the
engine is not in one of the two declared-but-unused micro-states.  Every
reachable state is good (`reachable_good`). -/
def GoodState (c : CPU) : Prop :=
  (c.halted = true ↔ c.ustate = MicroState.Halted) ∧
  c.ustate ≠ MicroState.MemRead ∧ c.ustate ≠ MicroState.MemWrite

instance (c : CPU) : Decidable (GoodState c) := by
  unfold GoodState; infer_instance

/-- Steps remaining until the next FetchOp boundary, used as the termination
measure of the `step_instr` loops. -/
def rank : MicroState → Nat
  | MicroState.FetchOp => 6
  | MicroState.Decode => 5
  | MicroState.FetchOpLo => 4
  | MicroState.FetchOpHi => 3
  | MicroState.Execute => 2
  | MicroState.WriteBack => 1
  | MicroState.Halted => 0
  | MicroState.MemRead => 0
  | MicroState.MemWrite => 0

/-- A CPU state poised at the Execute micro-step of `ADD B` with the given
register contents, used for the concrete ADD test vectors. -/
def addExecState (a b : Nat) : CPU :=
  { initCPU with A := a, B := b, ustate := MicroState.Execute, opcode := 0x20 }

/-! ## Helper lemmas -/

@[simp] lemma snapshot_A (c : CPU) (ev : List BusEvent) : (snapshot c ev).A = c.A := rfl

@[simp] lemma snapshot_B (c : CPU) (ev : List BusEvent) : (snapshot c ev).B = c.B := rfl

@[simp] lemma snapshot_X (c : CPU) (ev : List BusEvent) : (snapshot c ev).X = c.X := rfl

@[simp] lemma snapshot_PC (c : CPU) (ev : List BusEvent) : (snapshot c ev).PC = c.PC := rfl

@[simp] lemma snapshot_SP (c : CPU) (ev : List BusEvent) : (snapshot c ev).SP = c.SP := rfl

@[simp] lemma snapshot_FLAGS (c : CPU) (ev : List BusEvent) :
    (snapshot c ev).FLAGS = c.FLAGS := rfl

@[simp] lemma snapshot_mem (c : CPU) (ev : List BusEvent) : (snapshot c ev).mem = c.mem := rfl

@[simp] lemma snapshot_halted (c : CPU) (ev : List BusEvent) :
    (snapshot c ev).halted = c.halted := rfl

@[simp] lemma snapshot_ustate (c : CPU) (ev : List BusEvent) :
    (snapshot c ev).ustate = c.ustate := rfl

@[simp] lemma snapshot_opcode (c : CPU) (ev : List BusEvent) :
    (snapshot c ev).opcode = c.opcode := rfl

@[simp] lemma snapshot_opaddr (c : CPU) (ev : List BusEvent) :
    (snapshot c ev).opaddr = c.opaddr := rfl

@[simp] lemma snapshot_cycles (c : CPU) (ev : List BusEvent) :
    (snapshot c ev).cycles = c.cycles + 1 := rfl

@[simp] lemma snapshot_timeline (c : CPU) (ev : List BusEvent) :
    (snapshot c ev).timeline = c.timeline ++
      [{ cycle := c.cycles, pc := c.PC, a := c.A, b := c.B, x := c.X,
         sp := c.SP % 256, flags := c.FLAGS, opcode := c.opcode,
         state := c.ustate, events := ev }] := rfl

lemma step_cycle_of_halted (c : CPU) (hh : c.halted = true) : step_cycle c = c := by
  simp [step_cycle, hh]

lemma execStep_props (c : CPU) (hh : c.halted = false) :
    (execStep c).1.timeline = c.timeline ∧ (execStep c).1.cycles = c.cycles ∧
    (execStep c).1.opcode = c.opcode ∧
    ((execHalts c.opcode = true ∧ (execStep c).1.ustate = MicroState.Halted ∧
        (execStep c).1.halted = true) ∨
     (execHalts c.opcode = false ∧ (execStep c).1.ustate = MicroState.WriteBack ∧
        (execStep c).1.halted = false)) := by
  by_cases w1 : c.opcode = 0x00
  · simp [execStep, execHalts, w1, hh]
  by_cases w2 : c.opcode = 0xFF
  · simp [execStep, execHalts, w1, w2, hh]
  by_cases w3 : c.opcode = 0x10
  · simp [execStep, execHalts, w1, w2, w3, hh]
  by_cases w4 : c.opcode = 0x11
  · simp [execStep, execHalts, w1, w2, w3, w4, hh]
  by_cases w5 : c.opcode = 0x33
  · simp [execStep, execHalts, w1, w2, w3, w4, w5, hh]
  by_cases w6 : c.opcode = 0x12
  · simp [execStep, execHalts, w1, w2, w3, w4, w5, w6, hh, busRead]
  by_cases w7 : c.opcode = 0x13
  · simp [execStep, execHalts, w1, w2, w3, w4, w5, w6, w7, hh, busWrite]
  by_cases w8 : c.opcode = 0x20
  · simp [execStep, execHalts, w1, w2, w3, w4, w5, w6, w7, w8, hh]
  by_cases w9 : c.opcode = 0x21
  · simp [execStep, execHalts, w1, w2, w3, w4, w5, w6, w7, w8, w9, hh]
  by_cases w10 : c.opcode = 0x22
  · simp [execStep, execHalts, w1, w2, w3, w4, w5, w6, w7, w8, w9, w10, hh]
  by_cases w11 : c.opcode = 0x23
  · simp [execStep, execHalts, w1, w2, w3, w4, w5, w6, w7, w8, w9, w10, w11, hh]
  by_cases w12 : c.opcode = 0x24
  · simp [execStep, execHalts, w1, w2, w3, w4, w5, w6, w7, w8, w9, w10, w11, w12, hh]
  by_cases w13 : c.opcode = 0x25
  · simp [execStep, execHalts, w1, w2, w3, w4, w5, w6, w7, w8, w9, w10, w11, w12, w13, hh]
  by_cases w14 : c.opcode = 0x26
  · simp [execStep, execHalts, w1, w2, w3, w4, w5, w6, w7, w8, w9, w10, w11, w12, w13,
          w14, hh]
  by_cases w15 : c.opcode = 0x30
  · simp [execStep, execHalts, w1, w2, w3, w4, w5, w6, w7, w8, w9, w10, w11, w12, w13,
          w14, w15, hh]
  by_cases w16 : c.opcode = 0x31
  · simp [execStep, execHalts, w1, w2, w3, w4, w5, w6, w7, w8, w9, w10, w11, w12, w13,
          w14, w15, w16, hh, apply_ite CPU.timeline, apply_ite CPU.cycles,
          apply_ite CPU.opcode, apply_ite CPU.ustate, apply_ite CPU.halted]
  by_cases w17 : c.opcode = 0x32
  · simp [execStep, execHalts, w1, w2, w3, w4, w5, w6, w7, w8, w9, w10, w11, w12, w13,
          w14, w15, w16, w17, hh, apply_ite CPU.timeline, apply_ite CPU.cycles,
          apply_ite CPU.opcode, apply_ite CPU.ustate, apply_ite CPU.halted]
  by_cases w18 : c.opcode = 0x34
  · simp [execStep, execHalts, w1, w2, w3, w4, w5, w6, w7, w8, w9, w10, w11, w12, w13,
          w14, w15, w16, w17, w18, hh, busRead]
  by_cases w19 : c.opcode = 0x35
  · simp [execStep, execHalts, w1, w2, w3, w4, w5, w6, w7, w8, w9, w10, w11, w12, w13,
          w14, w15, w16, w17, w18, w19, hh, busWrite]
  · simp [execStep, execHalts, w1, w2, w3, w4, w5, w6, w7, w8, w9, w10, w11, w12, w13,
          w14, w15, w16, w17, w18, w19, hh]

lemma stepArm_frame (c : CPU) (hh : c.halted = false) :
    (stepArm c).1.timeline = c.timeline ∧ (stepArm c).1.cycles = c.cycles := by
  cases hu : c.ustate with
  | Execute =>
    have h := execStep_props c hh
    simp only [stepArm, hu]
    exact ⟨h.1, h.2.1⟩
  | FetchOp => simp [stepArm, hu, fetchStep, busRead]
  | Decode => simp [stepArm, hu]
  | FetchOpLo => simp [stepArm, hu, fetchLoStep, busRead]
  | FetchOpHi => simp [stepArm, hu, fetchHiStep, busRead]
  | WriteBack => simp [stepArm, hu]
  | MemRead => simp [stepArm, hu]
  | MemWrite => simp [stepArm, hu]
  | Halted => simp [stepArm, hu]

lemma step_cycle_counts (c : CPU) (hh : c.halted = false) :
    (step_cycle c).timeline.length = c.timeline.length + 1 ∧
    (step_cycle c).cycles = c.cycles + 1 := by
  have hf := stepArm_frame c hh
  simp [step_cycle, hh, hf.1, hf.2]

lemma step_fetch_facts (c : CPU) (hh : c.halted = false)
    (hu : c.ustate = MicroState.FetchOp) :
    (step_cycle c).ustate = MicroState.Decode ∧ (step_cycle c).halted = false ∧
    (step_cycle c).opcode = c.mem c.PC := by
  simp [step_cycle, hh, stepArm, hu, fetchStep, busRead]

lemma step_decode_facts (c : CPU) (hh : c.halted = false)
    (hu : c.ustate = MicroState.Decode) :
    (step_cycle c).ustate = decodeNext c.opcode ∧ (step_cycle c).halted = false ∧
    (step_cycle c).opcode = c.opcode := by
  simp [step_cycle, hh, stepArm, hu]

lemma step_lo_facts (c : CPU) (hh : c.halted = false)
    (hu : c.ustate = MicroState.FetchOpLo) :
    (step_cycle c).ustate = (if c.opcode = 0x10 ∨ c.opcode = 0x11 ∨ c.opcode = 0x33
      then MicroState.Execute else MicroState.FetchOpHi) ∧
    (step_cycle c).halted = false ∧ (step_cycle c).opcode = c.opcode := by
  simp [step_cycle, hh, stepArm, hu, fetchLoStep, busRead]

lemma step_hi_facts (c : CPU) (hh : c.halted = false)
    (hu : c.ustate = MicroState.FetchOpHi) :
    (step_cycle c).ustate = MicroState.Execute ∧ (step_cycle c).halted = false ∧
    (step_cycle c).opcode = c.opcode := by
  simp [step_cycle, hh, stepArm, hu, fetchHiStep, busRead]

lemma step_exec_facts (c : CPU) (hh : c.halted = false)
    (hu : c.ustate = MicroState.Execute) :
    (step_cycle c).opcode = c.opcode ∧
    ((execHalts c.opcode = true ∧ (step_cycle c).ustate = MicroState.Halted ∧
        (step_cycle c).halted = true) ∨
     (execHalts c.opcode = false ∧ (step_cycle c).ustate = MicroState.WriteBack ∧
        (step_cycle c).halted = false)) := by
  have h := execStep_props c hh
  have e : step_cycle c = snapshot (execStep c).1 (execStep c).2 := by
    simp [step_cycle, hh, stepArm, hu]
  rw [e]
  simp only [snapshot_opcode, snapshot_ustate, snapshot_halted]
  exact ⟨h.2.2.1, h.2.2.2⟩

lemma step_wb_facts (c : CPU) (hh : c.halted = false)
    (hu : c.ustate = MicroState.WriteBack) :
    (step_cycle c).ustate = MicroState.FetchOp ∧ (step_cycle c).halted = false ∧
    (step_cycle c).opcode = c.opcode := by
  simp [step_cycle, hh, stepArm, hu]

/-- Membership characterization of the `load_program` store list. -/
lemma mem_load_stores_from (bytes : List Nat) (o : Nat) (p : Nat × Nat) :
    p ∈ load_stores_from o bytes ↔
      ∃ i, ∃ hi : i < bytes.length, p = (o + i, bytes.get ⟨i, hi⟩) := by
  induction bytes generalizing o with
  | nil => simp [load_stores_from]
  | cons b rest ih =>
    simp only [load_stores_from, List.mem_cons, ih]
    constructor
    · rintro (rfl | ⟨i, hi, rfl⟩)
      · exact ⟨0, by simp, by simp⟩
      · refine ⟨i + 1, by simpa using hi, ?_⟩
        simp only [List.get_cons_succ, Prod.mk.injEq]
        exact ⟨by omega, trivial⟩
    · rintro ⟨i, hi, rfl⟩
      cases i with
      | zero => left; simp
      | succ i =>
        right
        refine ⟨i, by simpa using hi, ?_⟩
        simp only [List.get_cons_succ, Prod.mk.injEq]
        exact ⟨by omega, trivial⟩

lemma length_load_stores_from (bytes : List Nat) (o : Nat) :
    (load_stores_from o bytes).length = bytes.length := by
  induction bytes generalizing o with
  | nil => rfl
  | cons b rest ih => simp [load_stores_from, ih]

/-! ## Claim theorems -/

/-- C9: `reset` is idempotent: for every CPU state and every initial PC `p`,
`reset (reset c p) p` is exactly the same observable state (registers, flags,
SP, PC, memory, halted, cycles, ustate, opcode, opaddr, timeline) as
`reset c p`. -/
theorem reset_idempotent (c : CPU) (p : Nat) : reset (reset c p) p = reset c p := rfl

/-- C10 (amended): `reset` leaves the memory array and the `opcode` / `opaddr`
latches unchanged and writes only A, B, X, FLAGS, SP, PC, halted, cycles,
ustate and the timeline, so a previously loaded program survives reset; the
stale opcode stays latched in the CPU state until the first fetch overwrites
it (the first post-reset trace frame already shows the freshly fetched
opcode, `c.mem (p % 65536)`). -/
theorem reset_frame_effect (c : CPU) (p : Nat) :
    (reset c p).mem = c.mem ∧ (reset c p).opcode = c.opcode ∧
    (reset c p).opaddr = c.opaddr ∧
    (reset c p).A = 0 ∧ (reset c p).B = 0 ∧ (reset c p).X = 0 ∧
    (reset c p).FLAGS = 0 ∧ (reset c p).SP = 0x01FF ∧
    (reset c p).PC = p % 65536 ∧ (reset c p).halted = false ∧
    (reset c p).cycles = 0 ∧ (reset c p).ustate = MicroState.FetchOp ∧
    (reset c p).timeline = [] ∧
    (step_cycle (reset c p)).opcode = c.mem (p % 65536) :=
  ⟨rfl, rfl, rfl, rfl, rfl, rfl, rfl, rfl, rfl, rfl, rfl, rfl, rfl, rfl⟩

/-- C10 counterexample: after running `INC A` (opcode 0x25) and resetting to
PC = 1, the stale opcode 0x25 is still latched, but the first post-reset trace
frame already shows the newly fetched opcode 0x00 — no trace frame ever shows
the stale latch. -/
theorem reset_stale_opcode_not_in_frames :
    (reset (step_cycle^[4] (reset (load_program initCPU [0x25, 0x00] 0) 0)) 1).opcode = 0x25 ∧
    (reset (step_cycle^[4] (reset (load_program initCPU [0x25, 0x00] 0) 0)) 1).timeline = [] ∧
    ((step_cycle (reset (step_cycle^[4] (reset (load_program initCPU [0x25, 0x00] 0) 0)) 1)).timeline.map
        TraceFrame.opcode) = [0x00] := by
  decide

/-- C2 (amended): `write16 addr v` stores the low byte at index `addr` and the
high byte at index `addr + 1` computed without wrap-around; every store stays
below 65536 iff `addr ≠ 0xFFFF` (for `addr = 0xFFFF` the high byte goes to
index 65536, past the end of the array, not to address 0). -/
theorem write16_stores_spec (addr value : Nat) (h1 : addr < 65536) (h2 : value < 65536) :
    write16_stores addr value = [(addr, value % 256), (addr + 1, value / 256)] ∧
    ((∀ p ∈ write16_stores addr value, p.1 < 65536) ↔ addr ≠ 65535) := by
  have e : write16_stores addr value = [(addr, value % 256), (addr + 1, value / 256)] := by
    simp [write16_stores, Nat.mod_eq_of_lt h1, Nat.mod_eq_of_lt h2]
  refine ⟨e, ?_⟩
  rw [e]
  constructor
  · intro hall
    have h3 := hall (addr + 1, value / 256) (by simp)
    omega
  · intro hne p hp
    simp only [List.mem_cons, List.mem_singleton, List.not_mem_nil, or_false] at hp
    rcases hp with rfl | rfl
    · simpa using h1
    · simp only []
      omega

/-- Witness for C2's amended theorem at `addr = 0x1234`, `value = 0xABCD`. -/
theorem write16_stores_spec_witness :
    write16_stores 0x1234 0xABCD = [(0x1234, 0xCD), (0x1235, 0xAB)] ∧
    ((∀ p ∈ write16_stores 0x1234 0xABCD, p.1 < 65536) ↔ (0x1234 : Nat) ≠ 65535) :=
  write16_stores_spec 0x1234 0xABCD (by decide) (by decide)

/-- C2 counterexample: at `addr = 0xFFFF` the high byte is stored at index
65536 — outside the 65536-byte memory — and no store targets address 0. -/
theorem write16_wrap_counterexample :
    write16_stores 0xFFFF 0x1234 = [(0xFFFF, 0x34), (0x10000, 0x12)] ∧
    ¬ (∀ p ∈ write16_stores 0xFFFF 0x1234, p.1 < 65536) ∧
    ((0 : Nat), (0x12 : Nat)) ∉ write16_stores 0xFFFF 0x1234 := by
  decide

/-- C3 (amended): `load_program` copies byte `i` to index `origin + i` with no
bound check: every write lands below 65536 iff the program fits
(`bytes = [] ∨ origin + bytes.length ≤ 65536`); otherwise the tail of the
copy runs past the end of the 65536-byte array instead of being truncated. -/
theorem load_program_stores_spec (bytes : List Nat) (origin : Nat) (h : origin < 65536) :
    (∀ i, ∀ hi : i < bytes.length,
        (origin + i, bytes.get ⟨i, hi⟩) ∈ load_program_stores bytes origin) ∧
    (load_program_stores bytes origin).length = bytes.length ∧
    ((∀ p ∈ load_program_stores bytes origin, p.1 < 65536) ↔
      (bytes = [] ∨ origin + bytes.length ≤ 65536)) := by
  have ho : origin % 65536 = origin := Nat.mod_eq_of_lt h
  refine ⟨?_, ?_, ?_⟩
  · intro i hi
    rw [load_program_stores, ho]
    exact (mem_load_stores_from bytes origin _).mpr ⟨i, hi, rfl⟩
  · rw [load_program_stores, length_load_stores_from]
  · rw [load_program_stores, ho]
    constructor
    · intro hall
      by_cases hb : bytes = []
      · exact Or.inl hb
      · refine Or.inr ?_
        have hlen : 0 < bytes.length := List.length_pos.mpr hb
        have h3 := hall (origin + (bytes.length - 1),
            bytes.get ⟨bytes.length - 1, by omega⟩)
          ((mem_load_stores_from bytes origin _).mpr ⟨bytes.length - 1, by omega, rfl⟩)
        simp only [] at h3
        omega
    · rintro (rfl | hle) p hp
      · simp [load_stores_from] at hp
      · obtain ⟨i, hi, rfl⟩ := (mem_load_stores_from bytes origin p).mp hp
        simp only []
        omega

/-- Witness for C3's amended theorem at `bytes = [0xAA, 0xBB]`, `origin = 0x100`. -/
theorem load_program_stores_spec_witness :
    (load_program_stores [0xAA, 0xBB] 0x100).length = ([0xAA, 0xBB] : List Nat).length ∧
    ((∀ p ∈ load_program_stores [0xAA, 0xBB] 0x100, p.1 < 65536) ↔
      (([0xAA, 0xBB] : List Nat) = [] ∨ 0x100 + ([0xAA, 0xBB] : List Nat).length ≤ 65536)) :=
  ⟨(load_program_stores_spec [0xAA, 0xBB] 0x100 (by decide)).2.1,
   (load_program_stores_spec [0xAA, 0xBB] 0x100 (by decide)).2.2⟩

/-- C3 counterexample: loading two bytes at origin 0xFFFF writes the second
byte at index 65536, outside the 65536-byte memory — no silent truncation. -/
theorem load_program_oob_counterexample :
    load_program_stores [0x01, 0x02] 0xFFFF = [(0xFFFF, 0x01), (0x10000, 0x02)] ∧
    ¬ (∀ p ∈ load_program_stores [0x01, 0x02] 0xFFFF, p.1 < 65536) := by
  decide

/-- C1: the code's SUB carry is the borrow, not the inverted borrow.  Running
the claim's own programs: `10 05 11 03 21 FF` (A=5, B=3) ends with A=0x02 but
FLAGS = 0, i.e. C = 0 where the claim demands C = 1; `10 03 11 05 21 FF`
(A=3, B=5) ends with A=0xFE and FLAGS = F_C ||| F_N, i.e. C = 1 where the
claim demands C = 0.  The cause: `uint16_t(~B)` complements B at 16-bit
width, so bit 8 of `A + ~B + 1` is set exactly when A < B. -/
theorem sub_carry_inverted_at_s4 :
    ((step_cycle^[14] (reset (load_program initCPU [0x10, 0x05, 0x11, 0x03, 0x21, 0xFF] 0) 0)).A = 0x02 ∧
     (step_cycle^[14] (reset (load_program initCPU [0x10, 0x05, 0x11, 0x03, 0x21, 0xFF] 0) 0)).FLAGS = 0) ∧
    ((step_cycle^[14] (reset (load_program initCPU [0x10, 0x03, 0x11, 0x05, 0x21, 0xFF] 0) 0)).A = 0xFE ∧
     (step_cycle^[14] (reset (load_program initCPU [0x10, 0x03, 0x11, 0x05, 0x21, 0xFF] 0) 0)).FLAGS = F_C ||| F_N) := by
  decide

lemma and_one_eq (x : Nat) : x &&& 1 = (x.testBit 0).toNat := by
  have h := Nat.and_two_pow x 0
  simpa using h

lemma and_eight_eq (x : Nat) : x &&& 8 = (x.testBit 3).toNat * 8 := by
  have h := Nat.and_two_pow x 3
  simpa using h

lemma tb1_0 : Nat.testBit 1 0 = true := by decide

lemma tb2_0 : Nat.testBit 2 0 = false := by decide

lemma tb4_0 : Nat.testBit 4 0 = false := by decide

lemma tb8_0 : Nat.testBit 8 0 = false := by decide

lemma tb254_0 : Nat.testBit 254 0 = false := by decide

lemma tb253_0 : Nat.testBit 253 0 = true := by decide

lemma tb251_0 : Nat.testBit 251 0 = true := by decide

lemma tb247_0 : Nat.testBit 247 0 = true := by decide

lemma tb1_3 : Nat.testBit 1 3 = false := by decide

lemma tb2_3 : Nat.testBit 2 3 = false := by decide

lemma tb4_3 : Nat.testBit 4 3 = false := by decide

lemma tb8_3 : Nat.testBit 8 3 = true := by decide

lemma tb254_3 : Nat.testBit 254 3 = true := by decide

lemma tb253_3 : Nat.testBit 253 3 = true := by decide

lemma tb251_3 : Nat.testBit 251 3 = true := by decide

lemma tb247_3 : Nat.testBit 247 3 = false := by decide

/-- Bit 0 of the FLAGS value produced by `setAddFlags` is exactly "bit 8 of
the 16-bit result is set". -/
lemma setAddFlags_testBit0 (flags res a b : Nat) :
    (setAddFlags flags res a b).testBit 0 = decide (res &&& 0x100 ≠ 0) := by
  unfold setAddFlags setZN F_C F_Z F_N F_V
  dsimp only
  repeat' split
  all_goals simp_all [Nat.testBit_lor, Nat.testBit_land, tb1_0, tb2_0, tb4_0, tb8_0,
    tb254_0, tb253_0, tb251_0, tb247_0]

/-- Bit 3 of the FLAGS value produced by `setAddFlags` is exactly the
standard signed-overflow predicate of the source. -/
lemma setAddFlags_testBit3 (flags res a b : Nat) :
    (setAddFlags flags res a b).testBit 3 =
      decide (((a ^^^ b) &&& 0x80) = 0 ∧ ((a ^^^ res % 256) &&& 0x80) ≠ 0) := by
  unfold setAddFlags setZN F_C F_Z F_N F_V
  dsimp only
  repeat' split
  all_goals simp_all [Nat.testBit_lor, Nat.testBit_land, tb1_3, tb2_3, tb4_3, tb8_3,
    tb254_3, tb253_3, tb251_3, tb247_3]

/-- For sums below 512 (any two bytes), bit 8 set means the sum reached 256. -/
lemma carry_iff (x : Nat) (h : x < 512) : x &&& 0x100 ≠ 0 ↔ 256 ≤ x := by
  have h2 := Nat.and_two_pow x 8
  norm_num at h2
  rw [Nat.testBit_to_div_mod] at h2
  rw [h2]
  by_cases hd : x / 256 % 2 = 1 <;> simp [hd] <;> omega

/-- C4: starting from a reset state, `timeline.length = cycles` holds after
every number of `step_cycle` calls (hence before and after each call);
moreover each non-halted step appends exactly one TraceFrame and increments
`cycles` by one, while a halted step changes nothing at all. -/
theorem timeline_length_eq_cycles (c : CPU) (p : Nat) (n : Nat) :
    (step_cycle^[n] (reset c p)).timeline.length = (step_cycle^[n] (reset c p)).cycles ∧
    (∀ s : CPU, s.halted = false →
      (step_cycle s).timeline.length = s.timeline.length + 1 ∧
      (step_cycle s).cycles = s.cycles + 1) ∧
    (∀ s : CPU, s.halted = true → step_cycle s = s) := by
  refine ⟨?_, fun s hs => step_cycle_counts s hs, fun s hs => step_cycle_of_halted s hs⟩
  induction n with
  | zero => simp [reset]
  | succ n ih =>
    rw [Function.iterate_succ_apply']
    by_cases hh : (step_cycle^[n] (reset c p)).halted = true
    · rw [step_cycle_of_halted _ hh]
      exact ih
    · have h2 := step_cycle_counts (step_cycle^[n] (reset c p)) (by simpa using hh)
      omega

/-- Witness for C4 after 3 cycles of a NOP program and at one concrete
non-halted and one concrete halted state. -/
theorem timeline_length_eq_cycles_witness :
    (step_cycle^[3] (reset initCPU 0)).timeline.length =
      (step_cycle^[3] (reset initCPU 0)).cycles ∧
    ((step_cycle (reset initCPU 0)).timeline.length =
        (reset initCPU 0).timeline.length + 1 ∧
     (step_cycle (reset initCPU 0)).cycles = (reset initCPU 0).cycles + 1) ∧
    step_cycle (step_cycle^[3] (reset (load_program initCPU [0xFF] 0) 0)) =
      step_cycle^[3] (reset (load_program initCPU [0xFF] 0) 0) :=
  ⟨(timeline_length_eq_cycles initCPU 0 3).1,
   (timeline_length_eq_cycles initCPU 0 3).2.1 (reset initCPU 0) (by decide),
   (timeline_length_eq_cycles initCPU 0 3).2.2
     (step_cycle^[3] (reset (load_program initCPU [0xFF] 0) 0)) (by decide)⟩

/-- C6: executing `ADD B` (opcode 0x20) sets C to the 9th bit of the unsigned
sum `A + B` (i.e. `FLAGS &&& F_C = F_C` exactly when the sum reaches 256) and
V to the standard signed-overflow predicate; at the claim's test vectors,
A=0x7F + B=0x01 gives A=0x80 with C=0, Z=0, N=1, V=1 and A=0xFF + B=0x01
gives A=0x00 with C=1, Z=1, N=0, V=0. -/
theorem add_flags_spec :
    (∀ c : CPU, c.halted = false → c.ustate = MicroState.Execute → c.opcode = 0x20 →
      c.A < 256 → c.B < 256 →
      (step_cycle c).A = (c.A + c.B) % 256 ∧
      ((step_cycle c).FLAGS &&& F_C = if 256 ≤ c.A + c.B then F_C else 0) ∧
      ((step_cycle c).FLAGS &&& F_V =
        if ((c.A ^^^ c.B) &&& 0x80) = 0 ∧ ((c.A ^^^ (c.A + c.B) % 256) &&& 0x80) ≠ 0
        then F_V else 0)) ∧
    ((step_cycle (addExecState 0x7F 0x01)).A = 0x80 ∧
     (step_cycle (addExecState 0x7F 0x01)).FLAGS = (F_N ||| F_V) ∧
     (step_cycle (addExecState 0xFF 0x01)).A = 0x00 ∧
     (step_cycle (addExecState 0xFF 0x01)).FLAGS = (F_C ||| F_Z)) := by
  constructor
  · intro c hh hu hop hA hB
    have e1 : (step_cycle c).FLAGS = setAddFlags c.FLAGS (c.A + c.B) c.A c.B := by
      simp [step_cycle, hh, stepArm, hu, execStep, hop]
    have e2 : (step_cycle c).A = (c.A + c.B) % 256 := by
      simp [step_cycle, hh, stepArm, hu, execStep, hop]
    have hc := carry_iff (c.A + c.B) (by omega)
    refine ⟨e2, ?_, ?_⟩
    · rw [e1, show F_C = 1 from rfl, and_one_eq, setAddFlags_testBit0]
      by_cases hcc : 256 ≤ c.A + c.B
      · have ht : ((c.A + c.B) &&& 0x100 ≠ 0) := hc.mpr hcc
        simp [hcc, ht]
      · have hf : ¬ ((c.A + c.B) &&& 0x100 ≠ 0) := fun hx => hcc (hc.mp hx)
        simp [hcc, hf]
    · rw [e1, show F_V = 8 from rfl, and_eight_eq, setAddFlags_testBit3]
      by_cases hv : ((c.A ^^^ c.B) &&& 0x80) = 0 ∧
          ((c.A ^^^ (c.A + c.B) % 256) &&& 0x80) ≠ 0
      · rw [decide_eq_true hv]
        simp [hv]
      · rw [decide_eq_false hv]
        simp [hv]
  · decide

/-- Witness for C6's quantified part at the state A=0x7F, B=0x01. -/
theorem add_flags_spec_witness :
    (step_cycle (addExecState 0x7F 0x01)).A = (0x7F + 0x01) % 256 ∧
    ((step_cycle (addExecState 0x7F 0x01)).FLAGS &&& F_C =
      if 256 ≤ 0x7F + 0x01 then F_C else 0) :=
  ⟨(add_flags_spec.1 (addExecState 0x7F 0x01) rfl rfl rfl (by decide) (by decide)).1,
   (add_flags_spec.1 (addExecState 0x7F 0x01) rfl rfl rfl (by decide) (by decide)).2.1⟩

lemma decodeNext_mem (op : Nat) :
    decodeNext op = MicroState.Execute ∨ decodeNext op = MicroState.FetchOpLo := by
  unfold decodeNext
  repeat' split
  all_goals simp

lemma good_step (c : CPU) (hg : GoodState c) : GoodState (step_cycle c) := by
  by_cases hh : c.halted = true
  · rw [step_cycle_of_halted c hh]
    exact hg
  · have hh' : c.halted = false := by simpa using hh
    cases hu : c.ustate with
    | FetchOp =>
      have h := step_fetch_facts c hh' hu
      simp [GoodState, h.1, h.2.1]
    | Decode =>
      have h := step_decode_facts c hh' hu
      rcases decodeNext_mem c.opcode with hd | hd <;>
        simp [GoodState, h.1, h.2.1, hd]
    | FetchOpLo =>
      have h := step_lo_facts c hh' hu
      by_cases hi : c.opcode = 0x10 ∨ c.opcode = 0x11 ∨ c.opcode = 0x33 <;>
        simp [GoodState, h.1, h.2.1, hi]
    | FetchOpHi =>
      have h := step_hi_facts c hh' hu
      simp [GoodState, h.1, h.2.1]
    | Execute =>
      have h := step_exec_facts c hh' hu
      rcases h.2 with ⟨_, h2, h3⟩ | ⟨_, h2, h3⟩ <;> simp [GoodState, h2, h3]
    | WriteBack =>
      have h := step_wb_facts c hh' hu
      simp [GoodState, h.1, h.2.1]
    | MemRead => exact absurd hu hg.2.1
    | MemWrite => exact absurd hu hg.2.2
    | Halted => exact absurd (hg.1.mpr hu) (by simp [hh'])

lemma good_runToBoundary (f : Nat) (c : CPU) (hg : GoodState c) :
    GoodState (runToBoundary f c) := by
  induction f generalizing c with
  | zero => exact hg
  | succ n ih =>
    simp only [runToBoundary]
    split
    · exact good_step c hg
    · exact ih _ (good_step c hg)

lemma good_reset (c : CPU) (p : Nat) : GoodState (reset c p) :=
  ⟨by simp [reset], by simp [reset], by simp [reset]⟩

lemma reachable_good (c : CPU) (hr : Reachable c) : GoodState c := by
  induction hr with
  | init => exact (by decide)
  | rst p _ _ => exact good_reset _ p
  | loadp bytes origin _ ih => exact ih
  | wr16 addr value _ ih => exact ih
  | cyc _ ih => exact good_step _ ih
  | instr _ ih =>
    unfold step_instr
    split
    · exact ih
    · apply good_runToBoundary
      split
      · exact ih
      · exact good_runToBoundary _ _ ih

/-- C7: on every reachable state with `halted` set, the micro-state is
`Halted` and both `step_cycle` and `step_instr` return the state completely
unchanged (registers, flags, memory, halted, cycles, ustate, timeline). -/
theorem halted_no_op (c : CPU) (hr : Reachable c) (hh : c.halted = true) :
    c.ustate = MicroState.Halted ∧ step_cycle c = c ∧ step_instr c = c := by
  refine ⟨(reachable_good c hr).1.mp hh, step_cycle_of_halted c hh, ?_⟩
  simp [step_instr, hh]

/-- Witness for C7 at the concrete halted state reached by running `HLT`. -/
theorem halted_no_op_witness :
    (step_cycle^[3] (reset (load_program initCPU [0xFF] 0) 0)).ustate =
      MicroState.Halted ∧
    step_cycle (step_cycle^[3] (reset (load_program initCPU [0xFF] 0) 0)) =
      step_cycle^[3] (reset (load_program initCPU [0xFF] 0) 0) ∧
    step_instr (step_cycle^[3] (reset (load_program initCPU [0xFF] 0) 0)) =
      step_cycle^[3] (reset (load_program initCPU [0xFF] 0) 0) :=
  halted_no_op (step_cycle^[3] (reset (load_program initCPU [0xFF] 0) 0))
    (((Reachable.init.loadp [0xFF] 0).rst 0).cyc.cyc.cyc) (by decide)

lemma traj_imm (c : CPU) (hh : c.halted = false) (hu : c.ustate = MicroState.FetchOp)
    (hop : c.mem c.PC = 0x10 ∨ c.mem c.PC = 0x11 ∨ c.mem c.PC = 0x33) :
    ustatesAfter c 5 = [MicroState.Decode, MicroState.FetchOpLo, MicroState.Execute,
      MicroState.WriteBack, MicroState.FetchOp] := by
  have h1 := step_fetch_facts c hh hu
  have h2 := step_decode_facts (step_cycle c) h1.2.1 h1.1
  have h2op : (step_cycle (step_cycle c)).opcode = c.mem c.PC := by
    rw [h2.2.2, h1.2.2]
  have h2u : (step_cycle (step_cycle c)).ustate = MicroState.FetchOpLo := by
    rw [h2.1, h1.2.2]
    rcases hop with h | h | h <;> simp [decodeNext, h]
  have h3 := step_lo_facts (step_cycle (step_cycle c)) h2.2.1 h2u
  have h3u : (step_cycle (step_cycle (step_cycle c))).ustate = MicroState.Execute := by
    rw [h3.1, h2op]
    rcases hop with h | h | h <;> simp [h]
  have h3op : (step_cycle (step_cycle (step_cycle c))).opcode = c.mem c.PC := by
    rw [h3.2.2, h2op]
  have h4 := step_exec_facts (step_cycle (step_cycle (step_cycle c))) h3.2.1 h3u
  have hex : execHalts ((step_cycle (step_cycle (step_cycle c))).opcode) = false := by
    rw [h3op]
    rcases hop with h | h | h <;> simp [execHalts, h]
  rcases h4.2 with ⟨hT, _, _⟩ | ⟨_, h4u, h4h⟩
  · rw [hex] at hT
    simp at hT
  have h5 := step_wb_facts (step_cycle (step_cycle (step_cycle (step_cycle c)))) h4h h4u
  simp only [ustatesAfter]
  rw [h1.1, h2u, h3u, h4u, h5.1]

lemma traj_abs (c : CPU) (hh : c.halted = false) (hu : c.ustate = MicroState.FetchOp)
    (hop : c.mem c.PC = 0x12 ∨ c.mem c.PC = 0x13 ∨ c.mem c.PC = 0x30 ∨
           c.mem c.PC = 0x31 ∨ c.mem c.PC = 0x32 ∨ c.mem c.PC = 0x34 ∨
           c.mem c.PC = 0x35) :
    ustatesAfter c 6 = [MicroState.Decode, MicroState.FetchOpLo, MicroState.FetchOpHi,
      MicroState.Execute, MicroState.WriteBack, MicroState.FetchOp] := by
  have h1 := step_fetch_facts c hh hu
  have h2 := step_decode_facts (step_cycle c) h1.2.1 h1.1
  have h2op : (step_cycle (step_cycle c)).opcode = c.mem c.PC := by
    rw [h2.2.2, h1.2.2]
  have h2u : (step_cycle (step_cycle c)).ustate = MicroState.FetchOpLo := by
    rw [h2.1, h1.2.2]
    rcases hop with h | h | h | h | h | h | h <;> simp [decodeNext, h]
  have h3 := step_lo_facts (step_cycle (step_cycle c)) h2.2.1 h2u
  have h3u : (step_cycle (step_cycle (step_cycle c))).ustate = MicroState.FetchOpHi := by
    rw [h3.1, h2op]
    rcases hop with h | h | h | h | h | h | h <;> simp [h]
  have h3op : (step_cycle (step_cycle (step_cycle c))).opcode = c.mem c.PC := by
    rw [h3.2.2, h2op]
  have h4 := step_hi_facts (step_cycle (step_cycle (step_cycle c))) h3.2.1 h3u
  have h4op :
      (step_cycle (step_cycle (step_cycle (step_cycle c)))).opcode = c.mem c.PC := by
    rw [h4.2.2, h3op]
  have h5 := step_exec_facts (step_cycle (step_cycle (step_cycle (step_cycle c))))
    h4.2.1 h4.1
  have hex :
      execHalts ((step_cycle (step_cycle (step_cycle (step_cycle c)))).opcode) = false := by
    rw [h4op]
    rcases hop with h | h | h | h | h | h | h <;> simp [execHalts, h]
  rcases h5.2 with ⟨hT, _, _⟩ | ⟨_, h5u, h5h⟩
  · rw [hex] at hT
    simp at hT
  have h6 := step_wb_facts
    (step_cycle (step_cycle (step_cycle (step_cycle (step_cycle c))))) h5h h5u
  simp only [ustatesAfter]
  rw [h1.1, h2u, h3u, h4.1, h5u, h6.1]

lemma traj_impl (c : CPU) (hh : c.halted = false) (hu : c.ustate = MicroState.FetchOp)
    (hop : c.mem c.PC = 0x00 ∨ c.mem c.PC = 0x20 ∨ c.mem c.PC = 0x21 ∨
           c.mem c.PC = 0x22 ∨ c.mem c.PC = 0x23 ∨ c.mem c.PC = 0x24 ∨
           c.mem c.PC = 0x25 ∨ c.mem c.PC = 0x26) :
    ustatesAfter c 4 = [MicroState.Decode, MicroState.Execute,
      MicroState.WriteBack, MicroState.FetchOp] := by
  have h1 := step_fetch_facts c hh hu
  have h2 := step_decode_facts (step_cycle c) h1.2.1 h1.1
  have h2op : (step_cycle (step_cycle c)).opcode = c.mem c.PC := by
    rw [h2.2.2, h1.2.2]
  have h2u : (step_cycle (step_cycle c)).ustate = MicroState.Execute := by
    rw [h2.1, h1.2.2]
    rcases hop with h | h | h | h | h | h | h | h <;> simp [decodeNext, h]
  have h3 := step_exec_facts (step_cycle (step_cycle c)) h2.2.1 h2u
  have hex : execHalts ((step_cycle (step_cycle c)).opcode) = false := by
    rw [h2op]
    rcases hop with h | h | h | h | h | h | h | h <;> simp [execHalts, h]
  rcases h3.2 with ⟨hT, _, _⟩ | ⟨_, h3u, h3h⟩
  · rw [hex] at hT
    simp at hT
  have h4 := step_wb_facts (step_cycle (step_cycle (step_cycle c))) h3h h3u
  simp only [ustatesAfter]
  rw [h1.1, h2u, h3u, h4.1]

lemma traj_halt (c : CPU) (hh : c.halted = false) (hu : c.ustate = MicroState.FetchOp)
    (hd : decodeNext (c.mem c.PC) = MicroState.Execute)
    (hx : execHalts (c.mem c.PC) = true) :
    ustatesAfter c 3 = [MicroState.Decode, MicroState.Execute, MicroState.Halted] ∧
    (step_cycle (step_cycle (step_cycle c))).halted = true := by
  have h1 := step_fetch_facts c hh hu
  have h2 := step_decode_facts (step_cycle c) h1.2.1 h1.1
  have h2op : (step_cycle (step_cycle c)).opcode = c.mem c.PC := by
    rw [h2.2.2, h1.2.2]
  have h2u : (step_cycle (step_cycle c)).ustate = MicroState.Execute := by
    rw [h2.1, h1.2.2, hd]
  have h3 := step_exec_facts (step_cycle (step_cycle c)) h2.2.1 h2u
  have hex : execHalts ((step_cycle (step_cycle c)).opcode) = true := by
    rw [h2op, hx]
  rcases h3.2 with ⟨_, h3u, h3h⟩ | ⟨hF, _, _⟩
  · constructor
    · simp only [ustatesAfter]
      rw [h1.1, h2u, h3u]
    · exact h3h
  · rw [hex] at hF
    simp at hF

/-- C5: from any non-halted state at the FetchOp boundary, the micro-states
traversed by the next instruction are exactly the spec's §4.E path for the
fetched opcode (`specPath`): FetchOpLo appears exactly for immediate and
absolute opcodes, FetchOpHi exactly for absolute opcodes, the path ends back
at FetchOp (or at Halted for HLT/unknown opcodes), and — on any reachable
state — the engine is never in `MemRead` or `MemWrite`. -/
theorem ustate_path_follows_spec :
    (∀ c : CPU, c.ustate = MicroState.FetchOp → c.halted = false →
      ustatesAfter c (specPath (c.mem c.PC)).length = specPath (c.mem c.PC)) ∧
    (∀ c : CPU, Reachable c →
      c.ustate ≠ MicroState.MemRead ∧ c.ustate ≠ MicroState.MemWrite) := by
  constructor
  · intro c hu hh
    by_cases hImm : c.mem c.PC = 0x10 ∨ c.mem c.PC = 0x11 ∨ c.mem c.PC = 0x33
    · have hsp : specPath (c.mem c.PC) = [MicroState.Decode, MicroState.FetchOpLo,
          MicroState.Execute, MicroState.WriteBack, MicroState.FetchOp] := by
        simp [specPath, hImm]
      rw [hsp]
      exact traj_imm c hh hu hImm
    · by_cases hAbs : c.mem c.PC = 0x12 ∨ c.mem c.PC = 0x13 ∨ c.mem c.PC = 0x30 ∨
          c.mem c.PC = 0x31 ∨ c.mem c.PC = 0x32 ∨ c.mem c.PC = 0x34 ∨ c.mem c.PC = 0x35
      · have hsp : specPath (c.mem c.PC) = [MicroState.Decode, MicroState.FetchOpLo,
            MicroState.FetchOpHi, MicroState.Execute, MicroState.WriteBack,
            MicroState.FetchOp] := by
          simp [specPath, hImm, hAbs]
        rw [hsp]
        exact traj_abs c hh hu hAbs
      · by_cases hImp : c.mem c.PC = 0x00 ∨ c.mem c.PC = 0x20 ∨ c.mem c.PC = 0x21 ∨
            c.mem c.PC = 0x22 ∨ c.mem c.PC = 0x23 ∨ c.mem c.PC = 0x24 ∨
            c.mem c.PC = 0x25 ∨ c.mem c.PC = 0x26
        · have hsp : specPath (c.mem c.PC) = [MicroState.Decode, MicroState.Execute,
              MicroState.WriteBack, MicroState.FetchOp] := by
            simp [specPath, hImm, hAbs, hImp]
          rw [hsp]
          exact traj_impl c hh hu hImp
        · have hd : decodeNext (c.mem c.PC) = MicroState.Execute := by
            by_cases h0 : c.mem c.PC = 0x00
            · simp [decodeNext, h0]
            · by_cases hF : c.mem c.PC = 0xFF
              · simp [decodeNext, h0, hF]
              · simp [decodeNext, h0, hF, hImm, hAbs]
          have hsp : specPath (c.mem c.PC) = [MicroState.Decode, MicroState.Execute,
              MicroState.Halted] := by
            simp [specPath, hImm, hAbs, hImp]
          have hx : execHalts (c.mem c.PC) = true := by
            simp only [not_or] at hImm hAbs hImp
            simp [execHalts, hImp.1, hImm.1, hImm.2.1, hImm.2.2, hAbs.1, hAbs.2.1,
              hAbs.2.2.1, hAbs.2.2.2.1, hAbs.2.2.2.2.1, hAbs.2.2.2.2.2.1,
              hAbs.2.2.2.2.2.2, hImp.2.1, hImp.2.2.1, hImp.2.2.2.1, hImp.2.2.2.2.1,
              hImp.2.2.2.2.2.1, hImp.2.2.2.2.2.2.1, hImp.2.2.2.2.2.2.2]
          rw [hsp]
          exact (traj_halt c hh hu hd hx).1
  · intro c hr
    exact (reachable_good c hr).2

/-- Witness for C5 at the reset state of the zeroed CPU (opcode 0x00, an
implied instruction) and at the initial state for the reachability part. -/
theorem ustate_path_follows_spec_witness :
    ustatesAfter (reset initCPU 0)
        (specPath ((reset initCPU 0).mem (reset initCPU 0).PC)).length =
      specPath ((reset initCPU 0).mem (reset initCPU 0).PC) ∧
    (initCPU.ustate ≠ MicroState.MemRead ∧ initCPU.ustate ≠ MicroState.MemWrite) :=
  ⟨ustate_path_follows_spec.1 (reset initCPU 0) rfl rfl,
   ustate_path_follows_spec.2 initCPU Reachable.init⟩

lemma step_rank (c : CPU) (hg : GoodState c) (hh : c.halted = false) :
    (step_cycle c).halted = true ∨ (step_cycle c).ustate = MicroState.FetchOp ∨
      rank (step_cycle c).ustate < rank c.ustate := by
  cases hu : c.ustate with
  | FetchOp =>
    have h := step_fetch_facts c hh hu
    right; right
    rw [h.1]
    decide
  | Decode =>
    have h := step_decode_facts c hh hu
    rcases decodeNext_mem c.opcode with hd | hd <;>
      (right; right; rw [h.1, hd]; decide)
  | FetchOpLo =>
    have h := step_lo_facts c hh hu
    right; right
    rw [h.1]
    by_cases hi : c.opcode = 0x10 ∨ c.opcode = 0x11 ∨ c.opcode = 0x33 <;>
      simp [hi, rank]
  | FetchOpHi =>
    have h := step_hi_facts c hh hu
    right; right
    rw [h.1]
    decide
  | Execute =>
    rcases (step_exec_facts c hh hu).2 with ⟨_, _, h3⟩ | ⟨_, h2, _⟩
    · left; exact h3
    · right; right
      rw [h2]
      decide
  | WriteBack =>
    right; left
    exact (step_wb_facts c hh hu).1
  | MemRead => exact absurd hu hg.2.1
  | MemWrite => exact absurd hu hg.2.2
  | Halted => exact absurd (hg.1.mpr hu) (by simp [hh])

lemma rank_ge_one (c : CPU) (hg : GoodState c) (hh : c.halted = false) :
    1 ≤ rank c.ustate := by
  cases hu : c.ustate
  case Halted => exact absurd (hg.1.mpr hu) (by simp [hh])
  case MemRead => exact absurd hu hg.2.1
  case MemWrite => exact absurd hu hg.2.2
  all_goals simp [rank]

lemma runToBoundary_halted (f : Nat) (c : CPU) (hh : c.halted = true) :
    runToBoundary f c = c := by
  cases f with
  | zero => rfl
  | succ n =>
    simp only [runToBoundary]
    rw [step_cycle_of_halted c hh]
    simp [hh]

lemma runToBoundary_stable :
    ∀ n c, GoodState c → c.halted = false → rank c.ustate ≤ n →
      ∀ f, n ≤ f → runToBoundary f c = runToBoundary n c := by
  intro n
  induction n with
  | zero =>
    intro c hg hh hr f hf
    exact absurd hr (by have := rank_ge_one c hg hh; omega)
  | succ n ih =>
    intro c hg hh hr f hf
    obtain ⟨f2, rfl⟩ : ∃ f2, f = f2 + 1 := ⟨f - 1, by omega⟩
    simp only [runToBoundary]
    split
    · rfl
    · rename_i hstop
      have hh2 : (step_cycle c).halted = false := by
        rcases Bool.eq_false_or_eq_true (step_cycle c).halted with h | h
        · exact absurd (Or.inr h) hstop
        · exact h
      have hnf : (step_cycle c).ustate ≠ MicroState.FetchOp := by
        intro hx
        exact hstop (Or.inl hx)
      have hrank : rank (step_cycle c).ustate ≤ n := by
        rcases step_rank c hg hh with h | h | h
        · rw [h] at hh2; cases hh2
        · exact absurd h hnf
        · omega
      exact ih (step_cycle c) (good_step c hg) hh2 hrank f2 (by omega)

lemma runToBoundary_boundary :
    ∀ f c, GoodState c → c.halted = false → rank c.ustate ≤ f →
      (runToBoundary f c).ustate = MicroState.FetchOp ∨
      (runToBoundary f c).halted = true := by
  intro f
  induction f with
  | zero =>
    intro c hg hh hr
    exact absurd hr (by have := rank_ge_one c hg hh; omega)
  | succ n ih =>
    intro c hg hh hr
    simp only [runToBoundary]
    split
    · rename_i hstop
      exact hstop
    · rename_i hstop
      have hh2 : (step_cycle c).halted = false := by
        rcases Bool.eq_false_or_eq_true (step_cycle c).halted with h | h
        · exact absurd (Or.inr h) hstop
        · exact h
      have hnf : (step_cycle c).ustate ≠ MicroState.FetchOp := by
        intro hx
        exact hstop (Or.inl hx)
      have hrank : rank (step_cycle c).ustate ≤ n := by
        rcases step_rank c hg hh with h | h | h
        · rw [h] at hh2; cases hh2
        · exact absurd h hnf
        · omega
      exact ih (step_cycle c) (good_step c hg) hh2 hrank

/-- C8: from every reachable state, `step_instr` terminates — the do-while
loops of the source, modelled by `runToBoundary` with fuel, compute the same
final state for every fuel ≥ 6, i.e. each loop reaches the instruction
boundary within 6 micro-steps — and it returns a state with
`ustate = FetchOp` or `halted = true`; the fuel-independent equation exhibits
its shape: first run any in-flight instruction to the FetchOp boundary, then
execute exactly one more instruction to the next boundary. -/
theorem step_instr_reaches_boundary (c : CPU) (hr : Reachable c) :
    ((step_instr c).ustate = MicroState.FetchOp ∨ (step_instr c).halted = true) ∧
    (∀ f, 6 ≤ f →
      (if c.halted = true then c
       else runToBoundary f (if c.ustate = MicroState.FetchOp then c
         else runToBoundary f c)) = step_instr c) := by
  have hg : GoodState c := reachable_good c hr
  by_cases hh : c.halted = true
  · constructor
    · right
      simp [step_instr, hh]
    · intro f hf
      simp [step_instr, hh]
  · have hh' : c.halted = false := by simpa using hh
    by_cases hu : c.ustate = MicroState.FetchOp
    · have hrk : rank c.ustate ≤ 6 := by rw [hu]; decide
      have e : step_instr c = runToBoundary 8 c := by simp [step_instr, hh', hu]
      constructor
      · rw [e]
        exact runToBoundary_boundary 8 c hg hh' (by omega)
      · intro f hf
        have e1 := runToBoundary_stable 6 c hg hh' (by omega) f (by omega)
        have e2 := runToBoundary_stable 6 c hg hh' (by omega) 8 (by omega)
        rw [e]
        simp only [hh', hu, if_true, Bool.false_eq_true, if_false]
        rw [e1, e2]
    · have hrk : rank c.ustate ≤ 5 := by
        cases huu : c.ustate
        case FetchOp => exact absurd huu hu
        all_goals decide
      have hc1 : ∀ f, 5 ≤ f → runToBoundary f c = runToBoundary 5 c :=
        fun f hf => runToBoundary_stable 5 c hg hh' (by omega) f (by omega)
      have hb1 := runToBoundary_boundary 5 c hg hh' (by omega)
      have hg1 : GoodState (runToBoundary 5 c) := good_runToBoundary 5 c hg
      have e0 : step_instr c = runToBoundary 8 (runToBoundary 8 c) := by
        simp [step_instr, hh', hu]
      have e0' : step_instr c = runToBoundary 8 (runToBoundary 5 c) := by
        rw [e0, hc1 8 (by omega)]
      constructor
      · rw [e0']
        rcases hb1 with h1 | h1
        · by_cases hhh : (runToBoundary 5 c).halted = true
          · right
            rw [runToBoundary_halted 8 _ hhh]
            exact hhh
          · exact runToBoundary_boundary 8 (runToBoundary 5 c) hg1
              (by simpa using hhh) (by rw [h1]; decide)
        · right
          rw [runToBoundary_halted 8 _ h1]
          exact h1
      · intro f hf
        rw [e0']
        simp only [hh', hu, Bool.false_eq_true, if_false]
        rw [hc1 f (by omega)]
        rcases hb1 with h1 | h1
        · by_cases hhh : (runToBoundary 5 c).halted = true
          · rw [runToBoundary_halted f _ hhh, runToBoundary_halted 8 _ hhh]
          · have s1 := runToBoundary_stable 6 (runToBoundary 5 c) hg1
              (by simpa using hhh) (by rw [h1]; decide) f (by omega)
            have s2 := runToBoundary_stable 6 (runToBoundary 5 c) hg1
              (by simpa using hhh) (by rw [h1]; decide) 8 (by omega)
            rw [s1, s2]
        · rw [runToBoundary_halted f _ h1, runToBoundary_halted 8 _ h1]

/-- Witness for C8 at a concrete mid-instruction reachable state (one cycle
into a NOP instruction, `ustate = Decode`), also instantiating the
fuel-independence equation at fuel 7. -/
theorem step_instr_reaches_boundary_witness :
    ((step_instr (step_cycle (reset (load_program initCPU [0x00] 0) 0))).ustate =
        MicroState.FetchOp ∨
     (step_instr (step_cycle (reset (load_program initCPU [0x00] 0) 0))).halted = true) ∧
    ((if (step_cycle (reset (load_program initCPU [0x00] 0) 0)).halted = true then
        step_cycle (reset (load_program initCPU [0x00] 0) 0)
      else runToBoundary 7
        (if (step_cycle (reset (load_program initCPU [0x00] 0) 0)).ustate =
            MicroState.FetchOp then
          step_cycle (reset (load_program initCPU [0x00] 0) 0)
        else runToBoundary 7 (step_cycle (reset (load_program initCPU [0x00] 0) 0)))) =
      step_instr (step_cycle (reset (load_program initCPU [0x00] 0) 0))) :=
  ⟨(step_instr_reaches_boundary (step_cycle (reset (load_program initCPU [0x00] 0) 0))
      (((Reachable.init.loadp [0x00] 0).rst 0).cyc)).1,
   (step_instr_reaches_boundary (step_cycle (reset (load_program initCPU [0x00] 0) 0))
      (((Reachable.init.loadp [0x00] 0).rst 0).cyc)).2 7 (by omega)⟩
